import Mathlib

/-
  Verification of the vector-path core (src/path.rs).

  The Rust core is a thin wrapper around an external geometry engine.
  Wrapper functions (Path::new, walk, move_to, ..., Drop, Clone) are
  translated directly from src/path.rs.  Engine services (mupdf_* and fz_*
  calls) are external to src/ and are modelled from the specification;
  each such definition carries a doc comment saying so.  The f32 scalar
  coordinates of the source are idealized as exact rationals: every claim
  under study is structural (event order, slot population, state
  preservation) or concerns exactly representable values such as 0 and 10.
-/

namespace MupdfPath

/-- Modelled from the spec: the engine's Point value type, a pair of scalars
passed through opaquely by the core (f32 in the source, idealized as ℚ). -/
structure Point where
  x : ℚ
  y : ℚ
  deriving DecidableEq, Repr

/-- Modelled from the spec: the engine's Matrix value type, a 2D affine
transform made of 6 scalars. -/
structure Matrix where
  a : ℚ
  b : ℚ
  c : ℚ
  d : ℚ
  e : ℚ
  f : ℚ
  deriving DecidableEq, Repr

/-- The identity affine transform. -/
def Matrix.identity : Matrix := ⟨1, 0, 0, 1, 0, 0⟩

/-- Modelled from the spec: the engine's Rect value type, an axis-aligned
box given by 4 scalars. -/
structure Rect where
  x0 : ℚ
  y0 : ℚ
  x1 : ℚ
  y1 : ℚ
  deriving DecidableEq, Repr

/-- Modelled from the spec: the stroke-style descriptor (line width,
cap/join style, miter limit, dash pattern), opaque to the core and passed
through to the engine's bounds computation. -/
structure StrokeState where
  line_width : ℚ
  start_cap : Nat
  end_cap : Nat
  linejoin : Nat
  miterlimit : ℚ
  dashes : List ℚ
  deriving DecidableEq, Repr

/-- Modelled from the spec: the single error kind surfaced to callers,
wrapping the diagnostic reported by the geometry engine. -/
inductive Error where
  | engine (msg : String)
  deriving DecidableEq, Repr

/-- Modelled from the spec: one stored path segment, one of MoveTo(x,y),
LineTo(x,y), CurveTo(cx1,cy1,cx2,cy2,ex,ey), Close. -/
inductive Segment where
  | moveTo (x y : ℚ)
  | lineTo (x y : ℚ)
  | curveTo (cx1 cy1 cx2 cy2 ex ey : ℚ)
  | close
  deriving DecidableEq, Repr

/-- Modelled from the spec: the engine-owned path storage behind the
`*mut fz_path` handle: an ordered sequence of segments, the current point
(origin for an empty path, per the engine's convention), the start point of
the current subpath (the point `close` connects back to), and whether a
point-defining segment has established a current point. -/
structure fz_path where
  segments : List Segment
  current : Point
  beginPoint : Point
  hasCurrent : Bool
  deriving DecidableEq, Repr

/-- Modelled from the spec: the engine's allocate-empty-path service; a
fresh path has no segments and current point at the origin. -/
def fz_new_path : fz_path :=
  { segments := [], current := ⟨0, 0⟩, beginPoint := ⟨0, 0⟩, hasCurrent := false }

/-- Modelled from the spec: glue call `mupdf_new_path` requesting an empty
path from the engine (allocation failure is not modelled). -/
def mupdf_new_path : Except Error fz_path := .ok fz_new_path

/-- Modelled from the spec: glue call `mupdf_clone_path`, a deep copy of the
path storage value. -/
def mupdf_clone_path (p : fz_path) : Except Error fz_path := .ok p

/-- Modelled from the spec: glue call `mupdf_moveto` appends a MoveTo
segment, establishing the current point and the start of a new subpath. -/
def mupdf_moveto (p : fz_path) (x y : ℚ) : Except Error fz_path :=
  .ok { segments := p.segments ++ [.moveTo x y]
        current := ⟨x, y⟩
        beginPoint := ⟨x, y⟩
        hasCurrent := true }

/-- Modelled from the spec: glue call `mupdf_lineto` appends a LineTo
segment and updates the current point; the engine rejects a line with no
current point established, and the wrapper propagates that failure. -/
def mupdf_lineto (p : fz_path) (x y : ℚ) : Except Error fz_path :=
  if p.hasCurrent then
    .ok { p with segments := p.segments ++ [.lineTo x y], current := ⟨x, y⟩ }
  else
    .error (.engine "lineto with no current point")

/-- Modelled from the spec: glue call `mupdf_curveto` appends a cubic
Bezier segment through two control points to the end point, updating the
current point; rejected when no current point is established. -/
def mupdf_curveto (p : fz_path) (cx1 cy1 cx2 cy2 ex ey : ℚ) : Except Error fz_path :=
  if p.hasCurrent then
    .ok { p with segments := p.segments ++ [.curveTo cx1 cy1 cx2 cy2 ex ey]
                 current := ⟨ex, ey⟩ }
  else
    .error (.engine "curveto with no current point")

/-- Modelled from the spec: glue call `mupdf_curvetov`, a cubic curve whose
first control point coincides with the current point. -/
def mupdf_curvetov (p : fz_path) (cx cy ex ey : ℚ) : Except Error fz_path :=
  mupdf_curveto p p.current.x p.current.y cx cy ex ey

/-- Modelled from the spec: glue call `mupdf_curvetoy`, a cubic curve whose
second control point coincides with the end point. -/
def mupdf_curvetoy (p : fz_path) (cx cy ex ey : ℚ) : Except Error fz_path :=
  mupdf_curveto p cx cy ex ey ex ey

/-- Modelled from the spec: the stored form of a rectangle subpath.  The
rect-as-primitive traversal slot is left unpopulated by the core, so the
engine represents the rectangle through the four-operation vocabulary: a
closed 5-segment subpath spanning the two opposite corners. -/
def rectSegments (x1 y1 x2 y2 : ℤ) : List Segment :=
  [ .moveTo (x1 : ℚ) (y1 : ℚ)
  , .lineTo (x2 : ℚ) (y1 : ℚ)
  , .lineTo (x2 : ℚ) (y2 : ℚ)
  , .lineTo (x1 : ℚ) (y2 : ℚ)
  , .close ]

/-- Modelled from the spec: glue call `mupdf_rectto` appends a closed
rectangular subpath defined by two opposite integer corners; afterwards the
current point is the first corner (the subpath start the closure returned
to). -/
def mupdf_rectto (p : fz_path) (x1 y1 x2 y2 : ℤ) : Except Error fz_path :=
  .ok { segments := p.segments ++ rectSegments x1 y1 x2 y2
        current := ⟨(x1 : ℚ), (y1 : ℚ)⟩
        beginPoint := ⟨(x1 : ℚ), (y1 : ℚ)⟩
        hasCurrent := true }

/-- Modelled from the spec: glue call `mupdf_closepath` appends a Close
segment connecting back to the current subpath's start point, which becomes
the current point; rejected when no current point is established. -/
def mupdf_closepath (p : fz_path) : Except Error fz_path :=
  if p.hasCurrent then
    .ok { p with segments := p.segments ++ [.close], current := p.beginPoint }
  else
    .error (.engine "closepath with no current point")

/-- Modelled from the spec: application of a 2D affine transform to a
point. -/
def transformPoint (m : Matrix) (p : Point) : Point :=
  ⟨m.a * p.x + m.c * p.y + m.e, m.b * p.x + m.d * p.y + m.f⟩

/-- Modelled from the spec: transformation of every coordinate of one
stored segment. -/
def transformSegment (m : Matrix) : Segment → Segment
  | .moveTo x y =>
      .moveTo (transformPoint m ⟨x, y⟩).x (transformPoint m ⟨x, y⟩).y
  | .lineTo x y =>
      .lineTo (transformPoint m ⟨x, y⟩).x (transformPoint m ⟨x, y⟩).y
  | .curveTo cx1 cy1 cx2 cy2 ex ey =>
      .curveTo (transformPoint m ⟨cx1, cy1⟩).x (transformPoint m ⟨cx1, cy1⟩).y
        (transformPoint m ⟨cx2, cy2⟩).x (transformPoint m ⟨cx2, cy2⟩).y
        (transformPoint m ⟨ex, ey⟩).x (transformPoint m ⟨ex, ey⟩).y
  | .close => .close

/-- Modelled from the spec: glue call `mupdf_transform_path` applies an
affine transform to every coordinate in every stored segment, in place. -/
def mupdf_transform_path (p : fz_path) (m : Matrix) : Except Error fz_path :=
  .ok { segments := p.segments.map (transformSegment m)
        current := transformPoint m p.current
        beginPoint := transformPoint m p.beginPoint
        hasCurrent := p.hasCurrent }

/-- Modelled from the spec: engine call `fz_currentpoint`, the pure
current-point query (origin for an empty path). -/
def fz_currentpoint (p : fz_path) : Point := p.current

/-- Modelled from the spec: glue call `mupdf_trim_path` compacts internal
storage only (capacity is not part of the observable state), altering no
segment content or order and never failing observably. -/
def mupdf_trim_path (p : fz_path) : Except Error fz_path := .ok p

/-- The coordinate-carrying points of one stored segment, used by the
modelled bounds computation. -/
def segPoints : Segment → List Point
  | .moveTo x y => [⟨x, y⟩]
  | .lineTo x y => [⟨x, y⟩]
  | .curveTo cx1 cy1 cx2 cy2 ex ey => [⟨cx1, cy1⟩, ⟨cx2, cy2⟩, ⟨ex, ey⟩]
  | .close => []

/-- Modelled from the spec: glue call `mupdf_bound_path` computes the
axis-aligned bounding rectangle of the path as it would be stroked with the
given stroke style, after applying the given transform: the box spanning
every transformed control and end point, expanded by the stroke width. -/
def mupdf_bound_path (p : fz_path) (s : StrokeState) (m : Matrix) :
    Except Error Rect :=
  let pts := (p.segments.flatMap segPoints).map (transformPoint m)
  match pts with
  | [] => .ok ⟨0, 0, 0, 0⟩
  | q :: rest =>
      .ok ⟨ (rest.foldl (fun acc r => min acc r.x) q.x) - s.line_width
          , (rest.foldl (fun acc r => min acc r.y) q.y) - s.line_width
          , (rest.foldl (fun acc r => max acc r.x) q.x) + s.line_width
          , (rest.foldl (fun acc r => max acc r.y) q.y) + s.line_width ⟩

/-- Modelled from the spec: the engine's traversal callback table
`fz_path_walker`, four callback slots (move/line/curve/close) plus the
lower-level optional slots (quad-curve, curve-to-v, curve-to-y,
rect-as-primitive); an unpopulated slot is `none`.  Each callback is a state
transformer over the caller's visitor state. -/
structure fz_path_walker (σ : Type) where
  moveto : Option (σ → ℚ → ℚ → σ)
  lineto : Option (σ → ℚ → ℚ → σ)
  curveto : Option (σ → ℚ → ℚ → ℚ → ℚ → ℚ → ℚ → σ)
  closepath : Option (σ → σ)
  quadto : Option (σ → ℚ → ℚ → ℚ → ℚ → σ)
  curvetov : Option (σ → ℚ → ℚ → ℚ → ℚ → σ)
  curvetoy : Option (σ → ℚ → ℚ → ℚ → ℚ → σ)
  rectto : Option (σ → ℚ → ℚ → ℚ → ℚ → σ)

/-- Dispatch of one stored segment to the callback table: the populated
slot for the segment's kind runs, an unpopulated slot leaves the visitor
state unchanged. -/
def walkStep {σ : Type} (t : fz_path_walker σ) (s : σ) : Segment → σ
  | .moveTo x y =>
      match t.moveto with
      | some f => f s x y
      | none => s
  | .lineTo x y =>
      match t.lineto with
      | some f => f s x y
      | none => s
  | .curveTo cx1 cy1 cx2 cy2 ex ey =>
      match t.curveto with
      | some f => f s cx1 cy1 cx2 cy2 ex ey
      | none => s
  | .close =>
      match t.closepath with
      | some f => f s
      | none => s

/-- Modelled from the spec: engine call `fz_walk_path`, the
segment-traversal primitive: replays every stored segment to the callback
table, in order, exactly once each, synchronously and to completion. -/
def fz_walk_path {σ : Type} (t : fz_path_walker σ) (p : fz_path) (s : σ) : σ :=
  p.segments.foldl (walkStep t) s

/-- Modelled from the spec: glue call `mupdf_walk_path` wrapping the engine
traversal (the success case; engine-side traversal failure is modelled
separately by `mupdf_walk_path_fallible`). -/
def mupdf_walk_path {σ : Type} (t : fz_path_walker σ) (p : fz_path) (s : σ) :
    Except Error σ :=
  .ok (fz_walk_path t p s)

/-- Modelled from the spec: the engine-level traversal may fail, in which
case the set of events already delivered is unspecified; whether and how
the engine fails is the excluded engine's decision, injected here as a
parameter. -/
def mupdf_walk_path_fallible {σ : Type} (failure : Option Error)
    (t : fz_path_walker σ) (p : fz_path) (s : σ) : Except Error σ :=
  match failure with
  | some e => .error e
  | none => .ok (fz_walk_path t p s)

/-- The PathWalker trait of src/path.rs: a visitor implementing four
operations, modelled as state transformers over a visitor state σ (the
source's `&mut self` receiver). -/
structure PathWalker (σ : Type) where
  move_to : σ → ℚ → ℚ → σ
  line_to : σ → ℚ → ℚ → σ
  curve_to : σ → ℚ → ℚ → ℚ → ℚ → ℚ → ℚ → σ
  close : σ → σ

/-- The extern shim `path_walk_move_to` of src/path.rs: recovers the
visitor from the untyped argument and forwards to its move_to handler. -/
def path_walk_move_to {σ : Type} (w : PathWalker σ) (s : σ) (x y : ℚ) : σ :=
  w.move_to s x y

/-- The extern shim `path_walk_line_to` of src/path.rs. -/
def path_walk_line_to {σ : Type} (w : PathWalker σ) (s : σ) (x y : ℚ) : σ :=
  w.line_to s x y

/-- The extern shim `path_walk_curve_to` of src/path.rs. -/
def path_walk_curve_to {σ : Type} (w : PathWalker σ) (s : σ)
    (cx1 cy1 cx2 cy2 ex ey : ℚ) : σ :=
  w.curve_to s cx1 cy1 cx2 cy2 ex ey

/-- The extern shim `path_walk_close` of src/path.rs. -/
def path_walk_close {σ : Type} (w : PathWalker σ) (s : σ) : σ :=
  w.close s

/-- The callback table built by Path::walk in src/path.rs: the four
PathWalker slots populated with the shims, the quadto, curvetov, curvetoy
and rectto slots left unpopulated. -/
def c_walker {σ : Type} (w : PathWalker σ) : fz_path_walker σ :=
  { moveto := some (path_walk_move_to w)
    lineto := some (path_walk_line_to w)
    curveto := some (path_walk_curve_to w)
    closepath := some (path_walk_close w)
    quadto := none
    curvetov := none
    curvetoy := none
    rectto := none }

/-- The Path wrapper of src/path.rs; its `inner` raw handle is modelled by
direct ownership of the engine path value (handle nullability appears only
in the Drop model, where the source checks it). -/
structure Path where
  inner : fz_path
  deriving DecidableEq, Repr

/-- Path::new of src/path.rs. -/
def Path.new : Except Error Path := do
  let inner ← mupdf_new_path
  return { inner := inner }

/-- Path::try_clone of src/path.rs. -/
def Path.try_clone (p : Path) : Except Error Path := do
  let inner ← mupdf_clone_path p.inner
  return { inner := inner }

/-- Path::walk of src/path.rs: builds the callback table, boxes the
visitor, runs the engine traversal and propagates its error. -/
def Path.walk {σ : Type} (p : Path) (walker : PathWalker σ) (s : σ) :
    Except Error σ :=
  match mupdf_walk_path (c_walker walker) p.inner s with
  | .error e => .error e
  | .ok s2 => .ok s2

/-- Path::walk with the engine-failure parameter threaded through to the
modelled fallible traversal; the wrapper logic (ffi error propagation) is
that of src/path.rs. -/
def Path.walk_fallible {σ : Type} (failure : Option Error) (p : Path)
    (walker : PathWalker σ) (s : σ) : Except Error σ :=
  match mupdf_walk_path_fallible failure (c_walker walker) p.inner s with
  | .error e => .error e
  | .ok s2 => .ok s2

/-- Path::current_point of src/path.rs: a plain query with no error
path. -/
def Path.current_point (p : Path) : Point :=
  fz_currentpoint p.inner

/-- Path::move_to of src/path.rs. -/
def Path.move_to (p : Path) (x y : ℚ) : Except Error Path := do
  let inner ← mupdf_moveto p.inner x y
  return { inner := inner }

/-- Path::line_to of src/path.rs. -/
def Path.line_to (p : Path) (x y : ℚ) : Except Error Path := do
  let inner ← mupdf_lineto p.inner x y
  return { inner := inner }

/-- Path::curve_to of src/path.rs. -/
def Path.curve_to (p : Path) (cx1 cy1 cx2 cy2 ex ey : ℚ) : Except Error Path := do
  let inner ← mupdf_curveto p.inner cx1 cy1 cx2 cy2 ex ey
  return { inner := inner }

/-- Path::curve_to_v of src/path.rs. -/
def Path.curve_to_v (p : Path) (cx cy ex ey : ℚ) : Except Error Path := do
  let inner ← mupdf_curvetov p.inner cx cy ex ey
  return { inner := inner }

/-- Path::curve_to_y of src/path.rs. -/
def Path.curve_to_y (p : Path) (cx cy ex ey : ℚ) : Except Error Path := do
  let inner ← mupdf_curvetoy p.inner cx cy ex ey
  return { inner := inner }

/-- Path::rect of src/path.rs (i32 corners). -/
def Path.rect (p : Path) (x1 y1 x2 y2 : ℤ) : Except Error Path := do
  let inner ← mupdf_rectto p.inner x1 y1 x2 y2
  return { inner := inner }

/-- Path::close of src/path.rs. -/
def Path.close (p : Path) : Except Error Path := do
  let inner ← mupdf_closepath p.inner
  return { inner := inner }

/-- Path::transform of src/path.rs. -/
def Path.transform (p : Path) (mat : Matrix) : Except Error Path := do
  let inner ← mupdf_transform_path p.inner mat
  return { inner := inner }

/-- Path::bounds of src/path.rs. -/
def Path.bounds (p : Path) (stroke : StrokeState) (ctm : Matrix) :
    Except Error Rect := do
  let rect ← mupdf_bound_path p.inner stroke ctm
  return rect

/-- Path::trim of src/path.rs. -/
def Path.trim (p : Path) : Except Error Path := do
  let inner ← mupdf_trim_path p.inner
  return { inner := inner }

/-- An observable call into the engine's release service. -/
inductive EngineCall where
  | drop_path (p : fz_path)
  deriving DecidableEq, Repr

/-- The Drop impl of src/path.rs, as the list of engine release calls it
performs: release the storage iff the raw handle is non-null (`none`
models a null handle). -/
def path_drop (inner : Option fz_path) : List EngineCall :=
  match inner with
  | none => []
  | some p => [.drop_path p]

/-- One visitor event, as received by a recording visitor. -/
inductive Event where
  | move_to (x y : ℚ)
  | line_to (x y : ℚ)
  | curve_to (cx1 cy1 cx2 cy2 ex ey : ℚ)
  | close
  deriving DecidableEq, Repr

/-- A recording visitor: its state is the list of events received so far,
each handler appends the corresponding event. -/
def recordingWalker : PathWalker (List Event) :=
  { move_to := fun s x y => s ++ [.move_to x y]
    line_to := fun s x y => s ++ [.line_to x y]
    curve_to := fun s cx1 cy1 cx2 cy2 ex ey => s ++ [.curve_to cx1 cy1 cx2 cy2 ex ey]
    close := fun s => s ++ [.close] }

/-- The event sequence Path::walk delivers to a fresh recording visitor. -/
def Path.walkTrace (p : Path) : List Event :=
  match p.walk recordingWalker [] with
  | .ok tr => tr
  | .error _ => []

/-- The event a recording visitor receives for one stored segment. -/
def segEvent : Segment → Event
  | .moveTo x y => .move_to x y
  | .lineTo x y => .line_to x y
  | .curveTo cx1 cy1 cx2 cy2 ex ey => .curve_to cx1 cy1 cx2 cy2 ex ey
  | .close => .close

/-- One call of the builder-style append API of Path. -/
inductive AppendOp where
  | move_to (x y : ℚ)
  | line_to (x y : ℚ)
  | curve_to (cx1 cy1 cx2 cy2 ex ey : ℚ)
  | rect (x1 y1 x2 y2 : ℤ)
  | close
  deriving DecidableEq, Repr

/-- Dispatch of one append call to the corresponding Path method. -/
def Path.applyOp (p : Path) : AppendOp → Except Error Path
  | .move_to x y => p.move_to x y
  | .line_to x y => p.line_to x y
  | .curve_to cx1 cy1 cx2 cy2 ex ey => p.curve_to cx1 cy1 cx2 cy2 ex ey
  | .rect x1 y1 x2 y2 => p.rect x1 y1 x2 y2
  | .close => p.close

/-- A Path built from a fresh path by a sequence of append calls, failing
as soon as one call fails. -/
def Path.build (ops : List AppendOp) : Except Error Path := do
  let p0 ← Path.new
  ops.foldlM Path.applyOp p0

/-- The segments one successful append call stores. -/
def expectedSegments : AppendOp → List Segment
  | .move_to x y => [.moveTo x y]
  | .line_to x y => [.lineTo x y]
  | .curve_to cx1 cy1 cx2 cy2 ex ey => [.curveTo cx1 cy1 cx2 cy2 ex ey]
  | .rect x1 y1 x2 y2 => rectSegments x1 y1 x2 y2
  | .close => [.close]

/-- The visitor events walk delivers for one successful append call. -/
def expectedEvents (op : AppendOp) : List Event :=
  (expectedSegments op).map segEvent

/-- Modelled from the spec: the engine-side store of path allocations.  A
storage handle is an index into the store; distinct Path instances own
distinct handles, and clone allocates a fresh handle holding a deep copy
(no storage aliasing). -/
structure Heap where
  store : List fz_path
  deriving DecidableEq, Repr

/-- Allocation of a fresh handle holding the given path value. -/
def Heap.alloc (h : Heap) (p : fz_path) : Heap × Nat :=
  (⟨h.store ++ [p]⟩, h.store.length)

/-- The path value behind a handle, when the handle is live. -/
def Heap.read (h : Heap) (i : Nat) : Option fz_path :=
  h.store[i]?

/-- In-place update of the path value behind a handle. -/
def Heap.write (h : Heap) (i : Nat) (p : fz_path) : Heap :=
  ⟨h.store.set i p⟩

/-- Path::try_clone at the engine-store level: read the source handle,
request a deep copy from the engine, allocate it under a fresh handle. -/
def heap_try_clone (h : Heap) (i : Nat) : Except Error (Heap × Nat) :=
  match h.read i with
  | some p =>
      match mupdf_clone_path p with
      | .ok q => .ok (h.alloc q)
      | .error e => .error e
  | none => .error (.engine "invalid handle")

/-- One append call applied to the path behind a handle, updating the
store in place on success. -/
def heap_applyOp (h : Heap) (i : Nat) (op : AppendOp) : Except Error Heap :=
  match h.read i with
  | some p =>
      match Path.applyOp ⟨p⟩ op with
      | .ok q => .ok (h.write i q.inner)
      | .error e => .error e
  | none => .error (.engine "invalid handle")

/-- Path::walk at the engine-store level: the path is taken by shared
reference, so the store is returned unchanged alongside the recorded
event trace. -/
def heap_walk (h : Heap) (i : Nat) : Except Error (Heap × List Event) :=
  match h.read i with
  | some p => .ok (h, Path.walkTrace ⟨p⟩)
  | none => .error (.engine "invalid handle")

/-- Path::current_point at the engine-store level. -/
def heap_current_point (h : Heap) (i : Nat) : Option Point :=
  (h.read i).map fun p => Path.current_point ⟨p⟩

/-- Path::bounds at the engine-store level. -/
def heap_bounds (h : Heap) (i : Nat) (s : StrokeState) (m : Matrix) :
    Except Error Rect :=
  match h.read i with
  | some p => Path.bounds ⟨p⟩ s m
  | none => .error (.engine "invalid handle")

/-- One dispatch step of the recording table appends exactly the event of
the dispatched segment. -/
theorem walkStep_recording (s : List Event) (seg : Segment) :
    walkStep (c_walker recordingWalker) s seg = s ++ [segEvent seg] := by
  cases seg <;> rfl

/-- Folding the recording table over stored segments appends one event per
segment, in order. -/
theorem foldl_walkStep_recording (segs : List Segment) (s : List Event) :
    segs.foldl (walkStep (c_walker recordingWalker)) s = s ++ segs.map segEvent := by
  induction segs generalizing s with
  | nil => simp
  | cons seg rest ih =>
      rw [List.foldl_cons, walkStep_recording, ih]
      simp

/-- The recorded walk trace is the stored segment list, one event per
segment, in storage order. -/
theorem walkTrace_eq_map_segments (p : Path) :
    p.walkTrace = p.inner.segments.map segEvent := by
  simp [Path.walkTrace, Path.walk, mupdf_walk_path, fz_walk_path,
    foldl_walkStep_recording]

/-- Each successful append call extends the stored segment list by exactly
its expected segments, at the end. -/
theorem applyOp_segments (p q : Path) (op : AppendOp)
    (h : Path.applyOp p op = .ok q) :
    q.inner.segments = p.inner.segments ++ expectedSegments op := by
  cases op with
  | move_to x y =>
      simp [Path.applyOp, Path.move_to, mupdf_moveto] at h
      simp [← h, expectedSegments]
  | line_to x y =>
      cases hc : p.inner.hasCurrent <;>
        simp [Path.applyOp, Path.line_to, mupdf_lineto, hc] at h
      simp [← h, expectedSegments]
  | curve_to cx1 cy1 cx2 cy2 ex ey =>
      cases hc : p.inner.hasCurrent <;>
        simp [Path.applyOp, Path.curve_to, mupdf_curveto, hc] at h
      simp [← h, expectedSegments]
  | rect x1 y1 x2 y2 =>
      simp [Path.applyOp, Path.rect, mupdf_rectto] at h
      simp [← h, expectedSegments]
  | close =>
      cases hc : p.inner.hasCurrent <;>
        simp [Path.applyOp, Path.close, mupdf_closepath, hc] at h
      simp [← h, expectedSegments]

/-- A successful fold of append calls extends the stored segment list by
the concatenation of each call's expected segments, in call order. -/
theorem foldlM_applyOp_segments (ops : List AppendOp) :
    ∀ p q : Path, List.foldlM Path.applyOp p ops = .ok q →
      q.inner.segments = p.inner.segments ++ ops.flatMap expectedSegments := by
  induction ops with
  | nil =>
      intro p q h
      simp [List.foldlM, pure, Except.pure] at h
      simp [← h]
  | cons op rest ih =>
      intro p q h
      rw [List.foldlM_cons] at h
      cases hop : Path.applyOp p op with
      | error e =>
          rw [hop] at h
          simp only [Bind.bind, Except.bind] at h
          exact Except.noConfusion h
      | ok r =>
          rw [hop] at h
          simp only [Bind.bind, Except.bind] at h
          have hseg := ih r q h
          rw [hseg, applyOp_segments p r op hop]
          simp

/-- The identity matrix fixes every point. -/
theorem transformPoint_identity (p : Point) :
    transformPoint Matrix.identity p = p := by
  simp [transformPoint, Matrix.identity]

/-- The identity matrix fixes every stored segment. -/
theorem transformSegment_identity (s : Segment) :
    transformSegment Matrix.identity s = s := by
  cases s <;> simp [transformSegment, transformPoint_identity]

/-- The engine transform with the identity matrix returns the path
unchanged. -/
theorem mupdf_transform_path_identity (p : fz_path) :
    mupdf_transform_path p Matrix.identity = .ok p := by
  have hseg : transformSegment Matrix.identity = id :=
    funext transformSegment_identity
  simp [mupdf_transform_path, transformPoint_identity, hseg]

/-- C1: trim() never fails observably: for every Path it succeeds, and it
alters neither the path's segment content nor the segment order (the
result is the unchanged path). -/
theorem trim_never_fails_preserves_segments (p : Path) :
    p.trim = Except.ok p :=
  rfl

/-- C2: for every Path built by a sequence of successful append calls
(move_to, line_to, curve_to, rect, close), walk invokes the visitor's
handlers in exactly the original append order, exactly once per stored
segment, with matching coordinates: a MoveTo segment triggers move_to(x,y),
a LineTo segment line_to(x,y), a CurveTo segment its six coordinates, a
Close segment close(). -/
theorem walk_replays_appends_in_order (ops : List AppendOp) (p : Path)
    (h : Path.build ops = .ok p) :
    p.walkTrace = ops.flatMap expectedEvents ∧
    p.walkTrace = p.inner.segments.map segEvent := by
  have hb : List.foldlM Path.applyOp (⟨fz_new_path⟩ : Path) ops = .ok p := h
  have hseg := foldlM_applyOp_segments ops ⟨fz_new_path⟩ p hb
  refine ⟨?_, walkTrace_eq_map_segments p⟩
  rw [walkTrace_eq_map_segments, hseg]
  simp only [List.map_append, List.map_flatMap, fz_new_path]
  rfl

/-- Concrete append sequence exercising each operation of C2. -/
def opsC2 : List AppendOp :=
  [ .move_to 0 0, .line_to 10 10, .curve_to 1 2 3 4 5 6
  , .rect 0 0 2 3, .close ]

/-- The Path the C2 scenario builds. -/
def pathC2 : Path :=
  ⟨⟨[ .moveTo 0 0, .lineTo 10 10, .curveTo 1 2 3 4 5 6
    , .moveTo 0 0, .lineTo 2 0, .lineTo 2 3, .lineTo 0 3, .close
    , .close ], ⟨0, 0⟩, ⟨0, 0⟩, true⟩⟩

/-- Witness for C2 at a concrete append sequence. -/
theorem walk_replays_appends_in_order_witness :
    Path.build opsC2 = .ok pathC2 ∧
    pathC2.walkTrace = opsC2.flatMap expectedEvents := by
  have h : Path.build opsC2 = .ok pathC2 := rfl
  exact ⟨h, (walk_replays_appends_in_order opsC2 pathC2 h).1⟩

/-- C3: releasing a Path's storage on destruction is null-safe and happens
exactly once within the drop: a null handle releases nothing, a non-null
handle is released by exactly one engine call. -/
theorem drop_null_safe_exactly_once :
    path_drop none = [] ∧
    ∀ p : fz_path, path_drop (some p) = [EngineCall.drop_path p] :=
  ⟨rfl, fun _ => rfl⟩

/-- C5: current_point() is a pure, non-failing query returning a Point for
every Path; a freshly constructed Path's current point is the origin, and
walking a freshly constructed Path invokes no visitor methods (every
visitor is returned its initial state, and the recorded trace is empty). -/
theorem empty_path_current_point_origin :
    (∀ q : Path, ∃ pt : Point, q.current_point = pt) ∧
    ∃ p : Path, Path.new = .ok p ∧ p.current_point = ⟨0, 0⟩ ∧
      p.walkTrace = [] ∧
      ∀ (σ : Type) (w : PathWalker σ) (s : σ), p.walk w s = .ok s :=
  ⟨fun q => ⟨q.current_point, rfl⟩,
   ⟨fz_new_path⟩, rfl, rfl, rfl, fun _ _ _ => rfl⟩

/-- C8: applying the identity matrix via transform is an observational
identity: it succeeds, and the walk event sequence and the bounds under any
fixed stroke and ctm are unchanged (exactly, in the exact-arithmetic
model). -/
theorem transform_identity_preserves_walk_and_bounds (p : Path) :
    ∃ q : Path, p.transform Matrix.identity = .ok q ∧ q = p ∧
      q.walkTrace = p.walkTrace ∧
      ∀ (st : StrokeState) (m : Matrix), q.bounds st m = p.bounds st m := by
  refine ⟨p, ?_, rfl, rfl, fun _ _ => rfl⟩
  simp [Path.transform, mupdf_transform_path_identity, Bind.bind, Except.bind,
    pure, Except.pure]

/-- C9: from a new empty Path, after move_to(0,0), line_to(10,10) and
close() all succeed, walk delivers exactly move_to(0,0), line_to(10,10),
close(), in that order, with no curve_to and no extra events. -/
theorem close_scenario_exact_trace :
    ∃ p1 p2 p3 p4 : Path,
      Path.new = .ok p1 ∧
      p1.move_to 0 0 = .ok p2 ∧
      p2.line_to 10 10 = .ok p3 ∧
      p3.close = .ok p4 ∧
      p4.walkTrace = [Event.move_to 0 0, Event.line_to 10 10, Event.close] :=
  ⟨⟨fz_new_path⟩,
   ⟨⟨[.moveTo 0 0], ⟨0, 0⟩, ⟨0, 0⟩, true⟩⟩,
   ⟨⟨[.moveTo 0 0, .lineTo 10 10], ⟨10, 10⟩, ⟨0, 0⟩, true⟩⟩,
   ⟨⟨[.moveTo 0 0, .lineTo 10 10, .close], ⟨0, 0⟩, ⟨0, 0⟩, true⟩⟩,
   rfl, rfl, rfl, rfl, rfl⟩

/-- C4: walk populates exactly the moveto, lineto, curveto and closepath
slots of the engine's walker table with the four PathWalker shims, leaves
the quadto, curvetov, curvetoy and rectto slots unpopulated, and the
engine traversal never consults the unpopulated slots: any table agreeing
with the built table on the four populated slots walks every path to the
identical visitor state. -/
theorem walker_table_four_slots_only {σ : Type} (w : PathWalker σ) :
    (c_walker w).moveto = some (path_walk_move_to w) ∧
    (c_walker w).lineto = some (path_walk_line_to w) ∧
    (c_walker w).curveto = some (path_walk_curve_to w) ∧
    (c_walker w).closepath = some (path_walk_close w) ∧
    (c_walker w).quadto = none ∧
    (c_walker w).curvetov = none ∧
    (c_walker w).curvetoy = none ∧
    (c_walker w).rectto = none ∧
    ∀ t : fz_path_walker σ,
      t.moveto = (c_walker w).moveto →
      t.lineto = (c_walker w).lineto →
      t.curveto = (c_walker w).curveto →
      t.closepath = (c_walker w).closepath →
      ∀ (p : fz_path) (s : σ),
        fz_walk_path t p s = fz_walk_path (c_walker w) p s := by
  refine ⟨rfl, rfl, rfl, rfl, rfl, rfl, rfl, rfl, ?_⟩
  intro t h1 h2 h3 h4 p s
  have hstep : walkStep t = walkStep (c_walker w) := by
    funext s1 seg
    cases seg <;> simp [walkStep, h1, h2, h3, h4]
  rw [fz_walk_path, fz_walk_path, hstep]

/-- A table with junk callbacks in the slots the core leaves unpopulated,
agreeing with the core's table on the four populated slots. -/
def junkTable : fz_path_walker (List Event) :=
  { c_walker recordingWalker with
    quadto := some fun s _ _ _ _ => s ++ [.close]
    curvetov := some fun s _ _ _ _ => s ++ s
    curvetoy := some fun _ _ _ _ _ => []
    rectto := some fun _ _ _ _ _ => [.move_to 9 9] }

/-- Concrete path for the C4 witness. -/
def fzPathC4 : fz_path :=
  ⟨[.moveTo 1 2, .curveTo 1 2 3 4 5 6, .close], ⟨1, 2⟩, ⟨1, 2⟩, true⟩

/-- Witness for C4: the junk contents of the unpopulated slots are
invisible to the traversal of a concrete path. -/
theorem walker_table_four_slots_only_witness :
    fz_walk_path junkTable fzPathC4 [] =
      fz_walk_path (c_walker recordingWalker) fzPathC4 [] :=
  (walker_table_four_slots_only recordingWalker).2.2.2.2.2.2.2.2
    junkTable rfl rfl rfl rfl fzPathC4 []

/-- C6: walk returns an error exactly when the engine-level traversal
fails: the engine's error propagates unchanged to the caller (walk does
not return success), and when the engine traversal succeeds walk returns
success with the visitor's final state. -/
theorem walk_error_exactly_on_engine_failure {σ : Type} (p : Path)
    (w : PathWalker σ) (s : σ) (failure : Option Error) :
    (∀ e : Error, failure = some e →
      mupdf_walk_path_fallible failure (c_walker w) p.inner s = .error e ∧
      Path.walk_fallible failure p w s = .error e) ∧
    (failure = none →
      Path.walk_fallible failure p w s =
        .ok (fz_walk_path (c_walker w) p.inner s)) := by
  constructor
  · intro e he
    subst he
    exact ⟨rfl, rfl⟩
  · intro hn
    subst hn
    rfl

/-- Concrete path for the C6 witness. -/
def pathC6 : Path := ⟨⟨[.moveTo 3 4], ⟨3, 4⟩, ⟨3, 4⟩, true⟩⟩

/-- Witness for C6: a concrete engine failure propagates out of walk. -/
theorem walk_error_exactly_on_engine_failure_witness :
    Path.walk_fallible (some (.engine "traversal failed")) pathC6
      recordingWalker [] = .error (.engine "traversal failed") :=
  ((walk_error_exactly_on_engine_failure pathC6 recordingWalker []
      (some (.engine "traversal failed"))).1 (.engine "traversal failed") rfl).2

/-- The independence property C7 asserts of a heap, a handle and the path
value behind it: cloning succeeds under a fresh distinct handle holding an
equal deep copy, and mutating either of the two handles leaves the walk
trace and the bounds observed through the other unchanged. -/
def cloneIndependence (h : Heap) (i : Nat) (p : fz_path) : Prop :=
  ∃ (h1 : Heap) (j : Nat), heap_try_clone h i = .ok (h1, j) ∧ j ≠ i ∧
    h1.read i = some p ∧ h1.read j = some p ∧
    (∀ (op : AppendOp) (h2 : Heap), heap_applyOp h1 j op = .ok h2 →
      h2.read i = some p ∧
      heap_walk h2 i = .ok (h2, Path.walkTrace ⟨p⟩) ∧
      heap_walk h i = .ok (h, Path.walkTrace ⟨p⟩) ∧
      ∀ (st : StrokeState) (m : Matrix),
        heap_bounds h2 i st m = heap_bounds h i st m) ∧
    (∀ (op : AppendOp) (h2 : Heap), heap_applyOp h1 i op = .ok h2 →
      h2.read j = some p ∧
      heap_walk h2 j = .ok (h2, Path.walkTrace ⟨p⟩) ∧
      ∀ (st : StrokeState) (m : Matrix),
        heap_bounds h2 j st m = heap_bounds h1 j st m)

/-- C7: cloning produces a deep, independent copy with no storage
aliasing: the clone lives under a fresh handle, and mutating the clone
leaves the original's walk event sequence and bounds unchanged, and vice
versa. -/
theorem clone_deep_copy_independent (h : Heap) (i : Nat) (p : fz_path)
    (hread : h.read i = some p) : cloneIndependence h i p := by
  have hlen : i < h.store.length := by
    have := List.getElem?_eq_some.mp hread
    exact this.1
  have hne : h.store.length ≠ i := Nat.ne_of_gt hlen
  refine ⟨⟨h.store ++ [p]⟩, h.store.length, ?_, hne, ?_, ?_, ?_, ?_⟩
  · simp [heap_try_clone, Heap.read] at hread ⊢
    simp [hread, mupdf_clone_path, Heap.alloc]
  · show (h.store ++ [p])[i]? = some p
    rw [List.getElem?_append]
    simp [hlen]
    exact (List.getElem?_eq_some.mp hread).2
  · show (h.store ++ [p])[h.store.length]? = some p
    simp
  · intro op h2 hmut
    have hreadj : (Heap.read ⟨h.store ++ [p]⟩ h.store.length) = some p := by
      show (h.store ++ [p])[h.store.length]? = some p
      simp
    cases hq : Path.applyOp ⟨p⟩ op with
    | error e => simp [heap_applyOp, hreadj, hq] at hmut
    | ok r =>
        simp [heap_applyOp, hreadj, hq] at hmut
        have hreadi : h2.read i = some p := by
          rw [← hmut]
          show ((h.store ++ [p]).set h.store.length r.inner)[i]? = some p
          rw [List.getElem?_set_ne hne]
          rw [List.getElem?_append]
          simp [hlen]
          exact (List.getElem?_eq_some.mp hread).2
        refine ⟨hreadi, ?_, ?_, ?_⟩
        · simp [heap_walk, Heap.read] at hreadi ⊢
          simp [hreadi]
        · simp [heap_walk, Heap.read] at hread ⊢
          simp [hread]
        · intro st m
          simp [heap_bounds, Heap.read] at hread hreadi ⊢
          simp [hread, hreadi]
  · intro op h2 hmut
    have hreadi1 : (Heap.read ⟨h.store ++ [p]⟩ i) = some p := by
      show (h.store ++ [p])[i]? = some p
      rw [List.getElem?_append]
      simp [hlen]
      exact (List.getElem?_eq_some.mp hread).2
    cases hq : Path.applyOp ⟨p⟩ op with
    | error e => simp [heap_applyOp, hreadi1, hq] at hmut
    | ok r =>
        simp [heap_applyOp, hreadi1, hq] at hmut
        have hreadj : h2.read (h.store.length) = some p := by
          rw [← hmut]
          show ((h.store ++ [p]).set i r.inner)[h.store.length]? = some p
          rw [List.getElem?_set_ne (Ne.symm hne)]
          simp
        have hreadj1 : (Heap.read ⟨h.store ++ [p]⟩ h.store.length) = some p := by
          show (h.store ++ [p])[h.store.length]? = some p
          simp
        refine ⟨hreadj, ?_, ?_⟩
        · simp [heap_walk, Heap.read] at hreadj ⊢
          simp [hreadj]
        · intro st m
          simp [heap_bounds, Heap.read] at hreadj hreadj1 ⊢
          simp [hreadj, hreadj1]

/-- Concrete path value for the C7 witness. -/
def fzC7 : fz_path := ⟨[.moveTo 0 0, .lineTo 1 1], ⟨1, 1⟩, ⟨0, 0⟩, true⟩

/-- Concrete one-path heap for the C7 witness. -/
def heapC7 : Heap := ⟨[fzC7]⟩

/-- Witness for C7 at a concrete heap and handle. -/
theorem clone_deep_copy_independent_witness :
    heapC7.read 0 = some fzC7 ∧ cloneIndependence heapC7 0 fzC7 :=
  ⟨rfl, clone_deep_copy_independent heapC7 0 fzC7 rfl⟩

/-- C10: walking is deterministic and read-only: a successful walk leaves
the store unchanged, an immediately repeated walk returns the identical
event trace, and the stored path value, the current point and the bounds
are the same before and after the walk. -/
theorem walk_deterministic_read_only (h : Heap) (i : Nat) (h1 : Heap)
    (tr : List Event) (hw : heap_walk h i = .ok (h1, tr)) :
    h1 = h ∧ heap_walk h1 i = .ok (h1, tr) ∧
    h1.read i = h.read i ∧
    heap_current_point h1 i = heap_current_point h i ∧
    ∀ (st : StrokeState) (m : Matrix),
      heap_bounds h1 i st m = heap_bounds h i st m := by
  cases hr : h.read i with
  | none => simp [heap_walk, hr] at hw
  | some p =>
      simp only [heap_walk, hr] at hw
      have hpair : (h, Path.walkTrace ⟨p⟩) = (h1, tr) := Except.ok.inj hw
      have hh : h1 = h := (congrArg Prod.fst hpair).symm
      have ht : tr = Path.walkTrace ⟨p⟩ := (congrArg Prod.snd hpair).symm
      subst hh
      subst ht
      exact ⟨rfl, by simp only [heap_walk, hr], hr, rfl, fun _ _ => rfl⟩

/-- Concrete one-path heap for the C10 witness. -/
def heapC10 : Heap := ⟨[⟨[.moveTo 2 2, .close], ⟨2, 2⟩, ⟨2, 2⟩, true⟩]⟩

/-- The trace the C10 witness heap's path produces. -/
def trC10 : List Event := [.move_to 2 2, .close]

/-- Witness for C10 at a concrete heap and handle. -/
theorem walk_deterministic_read_only_witness :
    heap_walk heapC10 0 = .ok (heapC10, trC10) ∧
    (heapC10 = heapC10 ∧ heap_walk heapC10 0 = .ok (heapC10, trC10) ∧
      heapC10.read 0 = heapC10.read 0 ∧
      heap_current_point heapC10 0 = heap_current_point heapC10 0 ∧
      ∀ (st : StrokeState) (m : Matrix),
        heap_bounds heapC10 0 st m = heap_bounds heapC10 0 st m) :=
  ⟨rfl, walk_deterministic_read_only heapC10 0 heapC10 trC10 rfl⟩

end MupdfPath
